import Mathlib

/-!
Verification development for the Solar Oasis calculator (`src/App.tsx`).

The calculation engine of `App.tsx` is shallowly embedded here.  JavaScript
numbers are modelled as exact rationals (`ℚ`); `Math.round` is modelled as
round-half-up (the ECMAScript behaviour), `Math.ceil` as `Int.ceil`.
JavaScript division by zero yields `Infinity`, Lean's `ℚ` division yields `0`;
every theorem below that involves a division either fixes a nonzero concrete
divisor or carries a positivity hypothesis, so the two semantics agree on all
points used.  The `Infinity` sentinel stored in a tier's `to` field is
modelled by `Option ℚ` with `none` standing for `Infinity`.  The source field
`from` is renamed `tFrom` (and `to` becomes `tTo`) because `from` is a Lean
keyword.
-/

set_option maxRecDepth 8000

/-- `Math.round` of ECMAScript: round half toward positive infinity. -/
def jsRound (q : ℚ) : ℤ := ⌊q + 1 / 2⌋

/-- `x.toFixed(2)` followed by `parseFloat`, for the values produced by
`addTier`: round to the nearest hundredth, ties toward positive infinity
(the ECMAScript `toFixed` picks the larger candidate on ties). -/
def roundTo2 (q : ℚ) : ℚ := (jsRound (q * 100) : ℚ) / 100

/-- A tariff tier (source interface `Tier` in `types.ts`); `tTo = none`
models the `Infinity` sentinel of the top tier. -/
structure Tier where
  tFrom : ℚ
  tTo : Option ℚ
  rate : ℚ
deriving DecidableEq, Repr

/-- `rateStructure` state atom: the string `'flat'` or `'tiered'`. -/
inductive RateStructure where
  | flat
  | tiered
deriving DecidableEq, Repr

/-- The three state atoms the tariff calculator closes over:
`rateStructure`, `electricityRate` and `tiers`. -/
structure RateConfig where
  rateStructure : RateStructure
  electricityRate : ℚ
  tiers : List Tier
deriving DecidableEq, Repr

/-- The tier walk of `calculateBillAmount` (App.tsx lines 61-73): the `for`
loop over `tiers` with the `break` on a non-positive remainder. -/
def tieredWalk : List Tier → ℚ → ℚ
  | [], _ => 0
  | tier :: rest, remainingConsumption =>
    if remainingConsumption ≤ 0 then 0
    else
      let tierStart := if tier.tFrom > 0 then tier.tFrom - 1 else 0
      let tierConsumption :=
        match tier.tTo with
        | none => remainingConsumption
        | some tto => min remainingConsumption (tto - tierStart)
      max 0 tierConsumption * tier.rate + tieredWalk rest (remainingConsumption - tierConsumption)

/-- `calculateBillAmount` (App.tsx lines 56-75). -/
def calculateBillAmount (cfg : RateConfig) (consumption : ℚ) : ℚ :=
  if consumption ≤ 0 then 0
  else
    match cfg.rateStructure with
    | .flat => consumption * cfg.electricityRate
    | .tiered => tieredWalk cfg.tiers consumption

/-- The tier walk of `calculateBillAmountWithEscalation` (App.tsx lines
258-269), which multiplies every rate by the escalation factor. -/
def tieredWalkEscalated (escalationFactor : ℚ) : List Tier → ℚ → ℚ
  | [], _ => 0
  | tier :: rest, remainingConsumption =>
    if remainingConsumption ≤ 0 then 0
    else
      let tierStart := if tier.tFrom > 0 then tier.tFrom - 1 else 0
      let tierConsumption :=
        match tier.tTo with
        | none => remainingConsumption
        | some tto => min remainingConsumption (tto - tierStart)
      max 0 tierConsumption * (tier.rate * escalationFactor) +
        tieredWalkEscalated escalationFactor rest (remainingConsumption - tierConsumption)

/-- `calculateBillAmountWithEscalation` (App.tsx lines 251-272). -/
def calculateBillAmountWithEscalation (cfg : RateConfig) (consumption : ℚ)
    (year : ℕ) (escalation : ℚ) : ℚ :=
  if consumption ≤ 0 then 0
  else
    let escalationFactor := (1 + escalation) ^ (year - 1)
    match cfg.rateStructure with
    | .flat => consumption * (cfg.electricityRate * escalationFactor)
    | .tiered => tieredWalkEscalated escalationFactor cfg.tiers consumption

/-- `getAverageRate` (App.tsx lines 77-81); `tiers[0]?.rate || 0` is `0` on
an empty tier list and otherwise the head's rate (a zero rate is mapped to
`0` by `|| 0`, which coincides). -/
def getAverageRate (cfg : RateConfig) (consumption : ℚ) : ℚ :=
  if consumption = 0 then
    match cfg.rateStructure with
    | .flat => cfg.electricityRate
    | .tiered =>
      match cfg.tiers with
      | [] => 0
      | t :: _ => t.rate
  else
    match cfg.rateStructure with
    | .flat => cfg.electricityRate
    | .tiered => calculateBillAmount cfg consumption / consumption

/-- The initial tier configuration of App.tsx lines 24-29. -/
def defaultTiers : List Tier :=
  [⟨0, some 2000, 0.3⟩, ⟨2001, some 4000, 0.38⟩,
   ⟨4001, some 6000, 0.44⟩, ⟨6001, none, 0.5⟩]

/-- `ELECTRICITY_ESCALATION` (App.tsx line 281): 2% per year. -/
def ELECTRICITY_ESCALATION : ℚ := 0.02

/-- The tier-chain invariant of the spec, as a Boolean: helper that checks,
given the previous tier, that each finite `to` is followed by `to + 1` as the
next `from`, and that the final tier is unbounded. -/
def tailChainB : Tier → List Tier → Bool
  | t, [] => t.tTo.isNone
  | t, u :: rest =>
    (match t.tTo with
     | some x => decide (x + 1 = u.tFrom)
     | none => false) && tailChainB u rest

/-- The ordered-sequence invariant on a tier list: `tier[0].from = 0`,
`tier[i].to + 1 = tier[i+1].from`, and the last tier's `to` is unbounded. -/
def chainInvB : List Tier → Bool
  | [] => false
  | t :: rest => decide (t.tFrom = 0) && tailChainB t rest

/-- Insertion of a tier into a list ordered by ascending `from` (spec-side
helper: the source never sorts its tiers). -/
def insertTierByFrom (t : Tier) : List Tier → List Tier
  | [] => [t]
  | u :: rest => if t.tFrom ≤ u.tFrom then t :: u :: rest else u :: insertTierByFrom t rest

/-- Sorting a tier list ascending by `from` (spec-side helper for C2). -/
def sortTiersByFrom (l : List Tier) : List Tier := l.foldr insertTierByFrom []

/-- C2 counterexample: a two-tier valid chain listed top tier first.  The
walk of `calculateBillAmount` takes tiers in the caller's order, so the
unbounded tier absorbs everything. -/
def unsortedTiers : List Tier := [⟨2001, none, 0.38⟩, ⟨0, some 2000, 0.3⟩]

/-- The `keyof Tier` argument of `updateTier`: `'from'`, `'to'` or `'rate'`. -/
inductive TierField where
  | tfrom
  | tto
  | rate
deriving DecidableEq, Repr

/-- JavaScript in-place element mutation `l[i] = f(l[i])` on a copied array;
an out-of-range index leaves the list unchanged (the UI only ever passes
indices of rendered tiers). -/
def listModify : List Tier → ℕ → (Tier → Tier) → List Tier
  | [], _, _ => []
  | t :: rest, 0, f => f t :: rest
  | t :: rest, i + 1, f => t :: listModify rest i f

/-- `updateTier` (App.tsx lines 92-101): when editing `to` of a non-last
tier, the next tier's `from` is first re-anchored to `value + 1`; then the
edited field is assigned.  `value` is the already-parsed numeric input. -/
def updateTier (tiers : List Tier) (index : ℕ) (field : TierField) (value : ℚ) : List Tier :=
  let newTiers :=
    if field = .tto ∧ index < tiers.length - 1 then
      listModify tiers (index + 1) (fun t => { t with tFrom := value + 1 })
    else tiers
  listModify newTiers index (fun t =>
    match field with
    | .tfrom => { t with tFrom := value }
    | .tto => { t with tTo := some value }
    | .rate => { t with rate := value })

/-- `removeTier` (App.tsx lines 103-111): drop the tier at `index`; if a
predecessor exists, its `to` becomes `Infinity`. -/
def removeTier (tiers : List Tier) (index : ℕ) : List Tier :=
  if 1 < tiers.length then
    let newTiers := tiers.eraseIdx index
    if 0 < newTiers.length ∧ 0 < index ∧ index - 1 < newTiers.length then
      listModify newTiers (index - 1) (fun t => { t with tTo := none })
    else newTiers
  else tiers

/-- The `newFrom` computed by `addTier` (App.tsx line 85). -/
def addTierNewFrom (lastTier : Tier) : ℚ :=
  match lastTier.tTo with
  | none => lastTier.tFrom + 2000
  | some tto => tto + 1

/-- `addTier` (App.tsx lines 83-90): split the last tier at `newFrom` and
append a fresh unbounded tier at rate `+0.05` (rounded to two decimals by
`toFixed(2)`).  On an empty list the source would throw reading
`tiers[length-1]`; that state is unreachable and modelled as a no-op. -/
def addTier (tiers : List Tier) : List Tier :=
  match tiers.getLast? with
  | none => tiers
  | some lastTier =>
    let newFrom := addTierNewFrom lastTier
    tiers.dropLast ++
      [{ tFrom := lastTier.tFrom, tTo := some (newFrom - 1), rate := lastTier.rate },
       { tFrom := newFrom, tTo := none, rate := roundTo2 (lastTier.rate + 0.05) }]

/-- Word characters of the regex class `\w`: ASCII letters, digits and the
underscore. -/
def isWordChar (c : Char) : Bool := c.isAlphanum || c == '_'

/-- Characters matched by the regex class `[\s-]`. -/
def isSepChar (c : Char) : Bool := c.isWhitespace || c == '-'

/-- The characters the bill input is split on: the class of `/[,;\n]+/`. -/
def isSplitChar (c : Char) : Bool := c == ',' || c == ';' || c == '\n'

/-- `String.prototype.trim` on a character list. -/
def trimChars (cs : List Char) : List Char :=
  ((cs.dropWhile Char.isWhitespace).reverse.dropWhile Char.isWhitespace).reverse

/-- `toLowerCase` on a character list. -/
def toLowerChars (cs : List Char) : List Char := cs.map Char.toLower

/-- `parseFloat` on an all-digit capture: its natural-number value. -/
def digitsVal (cs : List Char) : ℕ := cs.foldl (fun n c => 10 * n + (c.toNat - '0'.toNat)) 0

/-- Split on every single split character.  Together with the emptiness
filter of `splitEntries` this is observationally the `/[,;\n]+/` split: the
`+` only merges adjacent separators, i.e. removes empty pieces, and every
empty or whitespace-only piece is dropped by the filter anyway. -/
def splitSeps : List Char → List (List Char)
  | [] => [[]]
  | c :: cs =>
    match splitSeps cs with
    | [] => [[]]
    | g :: gs => if isSplitChar c then [] :: g :: gs else (c :: g) :: gs

/-- `input.split(/[,;\n]+/).filter(e => e.trim())` (App.tsx line 114). -/
def splitEntries (input : List Char) : List (List Char) :=
  (splitSeps input).filter (fun e => !(trimChars e).isEmpty)

/-- After a `\w+` capture of length `k`, the remainder must match
`[\s-]*(\d+)$`: drop the maximal separator run and a nonempty all-digit
string must be left.  Separator and digit characters are disjoint, so the
maximal run is the only candidate the engine can settle on. -/
def sepsDigitsB (cs : List Char) : Bool :=
  let ds := cs.dropWhile isSepChar
  !ds.isEmpty && ds.all Char.isDigit

/-- The backtracking regex engine on `^(\w+)[\s-]*(\d+)$`: try the longest
`\w+` capture first and shrink it on failure; returns the two captured
groups (month word, digit string). -/
def tryMatch (t : List Char) : ℕ → Option (List Char × List Char)
  | 0 => none
  | k + 1 =>
    if (t.take (k + 1)).all isWordChar && sepsDigitsB (t.drop (k + 1)) then
      some (t.take (k + 1), (t.drop (k + 1)).dropWhile isSepChar)
    else tryMatch t k

/-- `entry.trim().match(/^(\w+)[\s-]*(\d+)$/)` (App.tsx line 118). -/
def matchEntry (t : List Char) : Option (List Char × List Char) := tryMatch t t.length

/-- The `months` array (App.tsx lines 53-54). -/
def months : List String :=
  ["January", "February", "March", "April", "May", "June",
   "July", "August", "September", "October", "November", "December"]

/-- `UAE_SEASONAL_FACTORS` (App.tsx lines 6-10). -/
def UAE_SEASONAL_FACTORS : List (String × ℚ) :=
  [("January", 0.75), ("February", 0.70), ("March", 0.80), ("April", 0.95),
   ("May", 1.15), ("June", 1.35), ("July", 1.50), ("August", 1.45),
   ("September", 1.25), ("October", 1.05), ("November", 0.85), ("December", 0.80)]

/-- Lookup in `UAE_SEASONAL_FACTORS`.  In JS an unknown key yields
`undefined` (then `NaN` downstream); that never happens because ledger
months are always canonical month names, and the default `1` is arbitrary. -/
def seasonalFactor (m : String) : ℚ :=
  ((UAE_SEASONAL_FACTORS.find? (fun p => p.1 == m)).map (fun p => p.2)).getD 1

/-- A consumption record (source interface `Bill` in `types.ts`). -/
structure Bill where
  month : String
  consumption : ℚ
  amount : ℚ
  isEstimated : Bool
deriving DecidableEq, Repr

/-- `months.indexOf(m)`, used by the bill sort comparator: `-1` if absent. -/
def monthIndexOf (m : String) : ℤ :=
  match months.findIdx? (fun x => x == m) with
  | some i => (i : ℤ)
  | none => -1

/-- The stable sort `(a, b) => months.indexOf(a.month) -
months.indexOf(b.month)` of App.tsx line 147 (ECMAScript sorts are stable). -/
def sortBills (l : List Bill) : List Bill :=
  l.mergeSort (fun a b => monthIndexOf a.month ≤ monthIndexOf b.month)

/-- `parseBillInput` (App.tsx lines 113-140): split, trim, regex-match each
entry, resolve the captured word as a case-insensitive prefix of a month
name (`findIndex` takes the first match), require consumption > 0 and a
month not already in the ledger or earlier in the batch, and silently drop
everything else. -/
def parseBillInput (cfg : RateConfig) (bills : List Bill) (input : String) : List Bill :=
  let entries := splitEntries input.toList
  (entries.foldl (fun (acc : List Bill × List String) entry =>
    match matchEntry (trimChars entry) with
    | none => acc
    | some (monthStr, consumptionStr) =>
      let consumption : ℚ := (digitsVal consumptionStr : ℚ)
      let monthLower := toLowerChars monthStr
      match months.findIdx? (fun m => monthLower.isPrefixOf (toLowerChars m.toList)) with
      | none => acc
      | some monthIndex =>
        match months[monthIndex]? with
        | none => acc
        | some month =>
          if 0 < consumption ∧ ¬ month ∈ acc.2 then
            (acc.1 ++ [⟨month, consumption, calculateBillAmount cfg consumption, false⟩],
             acc.2 ++ [month])
          else acc)
    ([], bills.map (fun b => b.month))).1

/-- The merge filter of `addBills` (App.tsx lines 145-147):
`filter((bill, i, self) => i === self.findIndex(b => b.month === bill.month))`
keeps the first bill of each month; `seen` holds months already kept. -/
def dedupKeepFirst : List Bill → List String → List Bill
  | [], _ => []
  | b :: rest, seen =>
    if b.month ∈ seen then dedupKeepFirst rest seen
    else b :: dedupKeepFirst rest (b.month :: seen)

/-- `addBills` (App.tsx lines 142-150): parse, and only if anything parsed,
merge with first-month-wins dedup and re-sort by calendar order. -/
def addBills (cfg : RateConfig) (bills : List Bill) (input : String) : List Bill :=
  let newBills := parseBillInput cfg bills input
  if newBills.isEmpty then bills
  else sortBills (dedupKeepFirst (bills ++ newBills) [])

/-- The normalized baseline of `handleEstimateFromPartialData` (App.tsx
lines 166-169): mean of consumption divided by the month's seasonal factor. -/
def normalizedAvgConsumption (bills : List Bill) : ℚ :=
  (bills.foldl (fun s b => s + b.consumption / seasonalFactor b.month) 0) / bills.length

/-- `handleEstimateFromPartialData` (App.tsx lines 163-189): no-op outside
1..11 bills; otherwise add a rounded estimated bill for each missing month,
reset `isEstimated` on the provided ones, and re-sort. -/
def handleEstimateFromPartialData (cfg : RateConfig) (bills : List Bill) : List Bill :=
  if bills.length = 0 ∨ 12 ≤ bills.length then bills
  else
    let userProvidedMonths := bills.map (fun b => b.month)
    let estimatedBills := (months.filter (fun m => decide (¬ m ∈ userProvidedMonths))).map
      (fun m =>
        let estimatedConsumption : ℚ :=
          (jsRound (normalizedAvgConsumption bills * seasonalFactor m) : ℚ)
        (⟨m, estimatedConsumption, calculateBillAmount cfg estimatedConsumption, true⟩ : Bill))
    sortBills (bills.map (fun b => { b with isEstimated := false }) ++ estimatedBills)

/-- One user operation on the bill ledger. -/
inductive LedgerOp where
  | add (input : String)
  | estimate
  | removeBill (index : ℕ)
  | clear

/-- Run a sequence of ledger operations from the empty ledger under a fixed
tariff configuration (`removeBill` is App.tsx lines 152-154, `clear` is the
`setBills([])` of line 520). -/
def runOps (cfg : RateConfig) (ops : List LedgerOp) : List Bill :=
  ops.foldl (fun bills op =>
    match op with
    | .add input => addBills cfg bills input
    | .estimate => handleEstimateFromPartialData cfg bills
    | .removeBill i => bills.eraseIdx i
    | .clear => []) []

/-- The matching positions of `^(\w+)[\s-]*(\d+)$` inside a trimmed entry:
the first `k` characters are word characters and the remainder is an
optional separator run followed by at least one digit. -/
def entryMatchesAt (t : List Char) (k : ℕ) : Prop :=
  0 < k ∧ (t.take k).all isWordChar = true ∧ sepsDigitsB (t.drop k) = true

instance (t : List Char) : DecidablePred (entryMatchesAt t) := fun k => by
  unfold entryMatchesAt; infer_instance

/-- Modelled from the spec (C9, amended wording): the accepted decomposition
takes the *longest* word run whose remainder is a separator run followed by
at least one digit — `Nat.findGreatest` picks the greatest matching position
within the entry (0 standing for no match); the captured groups are that
word and the digit run. -/
def specMatchEntry (t : List Char) : Option (List Char × List Char) :=
  let k := Nat.findGreatest (entryMatchesAt t) t.length
  if k = 0 then none
  else some (t.take k, (t.drop k).dropWhile isSepChar)

/-- Modelled from the spec (C9, amended wording): split the input on
comma/semicolon/newline, trim each entry, decompose it with
`specMatchEntry`, resolve the word as a case-insensitive prefix of a full
month name (first matching month), require a positive integer consumption
and a month not already present in the ledger or earlier in the batch
(first occurrence wins), and silently drop every other entry. -/
def specParseBills (cfg : RateConfig) (bills : List Bill) (input : String) : List Bill :=
  let entries := splitEntries input.toList
  (entries.foldl (fun (acc : List Bill × List String) entry =>
    match specMatchEntry (trimChars entry) with
    | none => acc
    | some (monthStr, consumptionStr) =>
      let consumption : ℚ := (digitsVal consumptionStr : ℚ)
      match months.find? (fun m => (toLowerChars monthStr).isPrefixOf (toLowerChars m.toList)) with
      | none => acc
      | some month =>
        if 0 < consumption ∧ ¬ month ∈ acc.2 then
          (acc.1 ++ [⟨month, consumption, calculateBillAmount cfg consumption, false⟩],
           acc.2 ++ [month])
        else acc)
    ([], bills.map (fun b => b.month))).1

/-- Integer-or-decimal literals, as the original C9 claim words them: a
nonempty digit run, optionally followed by a point and a nonempty digit
run. -/
def isDecimalChars (cs : List Char) : Bool :=
  let intPart := cs.takeWhile Char.isDigit
  let rest := cs.dropWhile Char.isDigit
  !intPart.isEmpty &&
    (rest.isEmpty ||
      (rest.head? == some '.' && !(rest.drop 1).isEmpty && (rest.drop 1).all Char.isDigit))

/-- The numeric value of an integer-or-decimal literal. -/
def decimalVal (cs : List Char) : ℚ :=
  let intPart := cs.takeWhile Char.isDigit
  let frac := (cs.dropWhile Char.isDigit).drop 1
  (digitsVal intPart : ℚ) + (digitsVal frac : ℚ) / 10 ^ frac.length

/-- Modelled from the spec: the per-entry acceptance predicate of C9 as
originally stated, for an empty batch — some decomposition into a word, an
optional separator run and an integer-or-decimal number exists, where the
word is a case-insensitive prefix of a full month name and the number is
positive. -/
def specOrigAcceptsEntry (t : List Char) : Bool :=
  (List.range (t.length + 1)).any (fun k =>
    decide (0 < k) && (t.take k).all isWordChar &&
    months.any (fun m => (toLowerChars (t.take k)).isPrefixOf (toLowerChars m.toList)) &&
    (let ds := (t.drop k).dropWhile isSepChar
     isDecimalChars ds && decide (0 < decimalVal ds)))

/-- The `authority` state atom: the string `'DEWA'` (net-metering rollover)
or `'FEWA'` (self-consumption-limited). -/
inductive Authority where
  | DEWA
  | FEWA
deriving DecidableEq, Repr

/-- The `summerMonths` list (App.tsx line 193). -/
def summerMonths : List String := ["May", "June", "July", "August", "September"]

/-- The `winterMonths` list (App.tsx line 194). -/
def winterMonths : List String :=
  ["October", "November", "December", "January", "February", "March", "April"]

/-- Derived snapshot (source interface `SeasonalAnalysis`); all fields are
stored rounded (`Math.round` at App.tsx lines 201-203). -/
structure SeasonalAnalysis where
  summerAvg : ℤ
  winterAvg : ℤ
  spikePercentage : ℤ
  baseLoad : ℤ
  coolingLoad : ℤ
deriving DecidableEq, Repr

/-- The seasonal-analysis effect (App.tsx lines 191-208). -/
def seasonalAnalysisOf (bills : List Bill) : SeasonalAnalysis :=
  if 0 < bills.length then
    let summerBills := bills.filter (fun bill => summerMonths.contains bill.month)
    let winterBills := bills.filter (fun bill => winterMonths.contains bill.month)
    let summerAvg := if 0 < summerBills.length then
      (summerBills.foldl (fun s b => s + b.consumption) (0 : ℚ)) / summerBills.length else 0
    let winterAvg := if 0 < winterBills.length then
      (winterBills.foldl (fun s b => s + b.consumption) (0 : ℚ)) / winterBills.length else 0
    let spikePercentage := if 0 < winterAvg then (summerAvg - winterAvg) / winterAvg * 100 else 0
    ⟨jsRound summerAvg, jsRound winterAvg, jsRound spikePercentage,
     jsRound winterAvg, jsRound (summerAvg - winterAvg)⟩
  else ⟨0, 0, 0, 0, 0⟩

/-- The inputs of the system-sizing effect (App.tsx lines 210-249). -/
structure SizingInputs where
  bills : List Bill
  authority : Authority
  batteryEnabled : Bool
  daytimeConsumption : ℚ
  peakSunHours : ℚ
  systemEfficiency : ℚ
  panelWattage : ℚ
deriving DecidableEq, Repr

/-- Derived snapshot (source interface `SystemRecommendation`); the fields
rounded by the source are stored as integers. -/
structure SystemRecommendation where
  systemSize : ℚ
  panelCount : ℤ
  spaceRequired : ℤ
  annualProduction : ℤ
  inverterCapacity : ℚ
  batteryCapacity : ℤ
  summerCoverage : ℤ
  winterCoverage : ℤ
  annualCoverage : ℤ
deriving DecidableEq, Repr

/-- The system-sizing effect (App.tsx lines 210-249).  Note: there is no
guard on `peakSunHours`, `systemEfficiency` or `panelWattage`; the divisions
are taken on the raw inputs (in JS a zero divisor would give `Infinity`; the
theorems below never evaluate at a zero divisor). -/
def systemSizing (inp : SizingInputs) : SystemRecommendation :=
  if 0 < inp.bills.length then
    let avgMonthly := (inp.bills.foldl (fun s b => s + b.consumption) (0 : ℚ)) / inp.bills.length
    let avgDailyConsumption := avgMonthly / 30
    let targetConsumption :=
      if inp.authority = .FEWA ∧ inp.batteryEnabled = false then
        avgDailyConsumption * (inp.daytimeConsumption / 100)
      else avgDailyConsumption
    let systemSize := targetConsumption / (inp.peakSunHours * (inp.systemEfficiency / 100))
    let panelCount : ℤ := ⌈systemSize * 1000 / inp.panelWattage⌉
    let actualSystemSize := ((panelCount : ℚ) * inp.panelWattage) / 1000
    let spaceRequired := (panelCount : ℚ) * 2.1
    let annualProduction := actualSystemSize * inp.peakSunHours * 365 * (inp.systemEfficiency / 100)
    let inverterCapacity := ((⌈actualSystemSize * 1.1 * 10⌉ : ℤ) : ℚ) / 10
    let batteryCapacity : ℤ :=
      if inp.authority = .FEWA ∧ inp.batteryEnabled = true then
        ⌈avgDailyConsumption * (1 - inp.daytimeConsumption / 100) * 1.2⌉
      else 0
    let monthlyProduction := annualProduction / 12
    let sa := seasonalAnalysisOf inp.bills
    let summerCoverage := if 0 < sa.summerAvg then monthlyProduction / (sa.summerAvg : ℚ) * 100 else 100
    let winterCoverage := if 0 < sa.winterAvg then monthlyProduction / (sa.winterAvg : ℚ) * 100 else 100
    let annualCoverage := if 0 < avgMonthly then annualProduction / (avgMonthly * 12) * 100 else 100
    ⟨(jsRound (actualSystemSize * 10) : ℚ) / 10, panelCount, jsRound spaceRequired,
     jsRound annualProduction, inverterCapacity, batteryCapacity,
     min (jsRound summerCoverage) 100, min (jsRound winterCoverage) 100,
     min (jsRound annualCoverage) 100⟩
  else ⟨0, 0, 0, 0, 0, 0, 0, 0, 0⟩

/-- `DEGRADATION_RATE` (App.tsx line 280): 0.5% per year. -/
def DEGRADATION_RATE : ℚ := 0.005

/-- `SYSTEM_LIFESPAN_YEARS` (App.tsx line 282). -/
def SYSTEM_LIFESPAN_YEARS : ℕ := 25

/-- The inputs of the financial-simulation effect (App.tsx lines 274-357):
the tariff configuration, regime, battery flag, daytime share, ledger, the
(rounded) `systemRecommendation.annualProduction`, and `parseFloat` of the
`systemCost` string. -/
structure FinInputs where
  cfg : RateConfig
  authority : Authority
  batteryEnabled : Bool
  daytimeConsumption : ℚ
  bills : List Bill
  annualProduction : ℚ
  initialInvestment : ℚ
deriving DecidableEq, Repr

/-- `bills.reduce(..)/bills.length` (App.tsx line 287). -/
def avgMonthlyConsumption (bills : List Bill) : ℚ :=
  (bills.foldl (fun s b => s + b.consumption) (0 : ℚ)) / bills.length

/-- `consumptionByMonth` (App.tsx lines 288-292): a present month's
consumption, the ledger mean otherwise. -/
def consumptionByMonth (bills : List Bill) (m : String) : ℚ :=
  match bills.find? (fun b => b.month == m) with
  | some bill => bill.consumption
  | none => avgMonthlyConsumption bills

/-- One simulated month (the body of the inner loop, App.tsx lines 303-330):
returns the month's contribution `originalBill - newBill` to the yearly
savings together with the new regime-A credit bank. -/
def simMonth (inp : FinInputs) (year : ℕ) (monthName : String) (bank : ℚ) : ℚ × ℚ :=
  let monthlyConsumption := consumptionByMonth inp.bills monthName
  let degradationFactor := (1 - DEGRADATION_RATE) ^ (year - 1)
  let monthlyProduction := inp.annualProduction / 12 * degradationFactor
  let originalBill :=
    calculateBillAmountWithEscalation inp.cfg monthlyConsumption year ELECTRICITY_ESCALATION
  match inp.authority with
  | .DEWA =>
    let netKwh := monthlyProduction - monthlyConsumption
    if 0 ≤ netKwh then (originalBill - 0, bank + netKwh)
    else
      let kwhToDraw := |netKwh|
      let drawnFromCredits := min kwhToDraw bank
      let kwhToBill := kwhToDraw - drawnFromCredits
      let newBill := calculateBillAmountWithEscalation inp.cfg kwhToBill year ELECTRICITY_ESCALATION
      (originalBill - newBill, bank - drawnFromCredits)
  | .FEWA =>
    let selfConsumptionRate := if inp.batteryEnabled then 0.95 else inp.daytimeConsumption / 100
    let savedKwh := min (monthlyProduction * selfConsumptionRate) monthlyConsumption
    let newBill :=
      calculateBillAmountWithEscalation inp.cfg (monthlyConsumption - savedKwh) year
        ELECTRICITY_ESCALATION
    (originalBill - newBill, bank)

/-- The state threaded across simulated years (App.tsx lines 294-297). -/
structure SimState where
  cumulativeCashFlow : ℚ
  paybackPeriodYears : ℚ
  firstYearAnnualSavings : ℚ
  netMeteringCreditsKwh : ℚ
deriving DecidableEq, Repr

/-- One simulated year (the body of the outer loop, App.tsx lines 299-344). -/
def yearStep (inp : FinInputs) (st : SimState) (year : ℕ) : SimState :=
  let ms := months.foldl (fun (acc : ℚ × ℚ) m =>
      let r := simMonth inp year m acc.2
      (acc.1 + r.1, r.2)) (0, st.netMeteringCreditsKwh)
  let yearlySavings := ms.1
  let firstYear := if year = 1 then yearlySavings else st.firstYearAnnualSavings
  let maintenanceCostPerYear := inp.initialInvestment * 0.01
  let yearlyCashFlow := yearlySavings - maintenanceCostPerYear
  let prevCumulativeCashFlow := st.cumulativeCashFlow
  let cumulativeCashFlow := prevCumulativeCashFlow + yearlyCashFlow
  let payback :=
    if st.paybackPeriodYears = 0 ∧ 0 < cumulativeCashFlow then
      ((year : ℚ) - 1) + |prevCumulativeCashFlow| / yearlyCashFlow
    else st.paybackPeriodYears
  ⟨cumulativeCashFlow, payback, firstYear, ms.2⟩

/-- The 25-year simulation loop (App.tsx lines 294-344), starting from
`cumulativeCashFlow = -initialInvestment` and an empty credit bank. -/
def runSim (inp : FinInputs) : SimState :=
  (List.range' 1 SYSTEM_LIFESPAN_YEARS).foldl (yearStep inp) ⟨-inp.initialInvestment, 0, 0, 0⟩

/-- Derived snapshot (source interface `FinancialAnalysis`). -/
structure FinancialAnalysis where
  annualSavings : ℤ
  paybackPeriod : ℚ
  roi25Year : ℤ
  netMeteringCredits : ℤ
deriving DecidableEq, Repr

/-- The financial-simulation effect (App.tsx lines 274-357): guard, run the
simulation, and assemble the outputs of lines 346-356.  Note that
`netMeteringCredits` is computed from `max(0, annualProduction - 12*avg)`
and `getAverageRate`, not from the simulated credit bank, and `roi25Year`
adds the initial investment back onto the final cumulative cash flow. -/
def financialAnalysis (inp : FinInputs) : FinancialAnalysis :=
  if inp.bills.length = 0 ∨ inp.annualProduction = 0 then ⟨0, 0, 0, 0⟩
  else
    let st := runSim inp
    let avgTariff := getAverageRate inp.cfg (avgMonthlyConsumption inp.bills)
    let totalAnnualConsumption := avgMonthlyConsumption inp.bills * 12
    let excessProduction := max 0 (inp.annualProduction - totalAnnualConsumption)
    let netMeteringCreditsValue := excessProduction * avgTariff
    ⟨jsRound st.firstYearAnnualSavings,
     if 0 < st.paybackPeriodYears then (jsRound (st.paybackPeriodYears * 10) : ℚ) / 10 else 0,
     jsRound (st.cumulativeCashFlow + inp.initialInvestment),
     jsRound netMeteringCreditsValue⟩

/-- The 300 simulated (year, month) pairs in execution order. -/
def yearMonthSeq : List (ℕ × String) :=
  (List.range' 1 SYSTEM_LIFESPAN_YEARS).flatMap (fun y => months.map (fun m => (y, m)))

/-- The regime-A credit bank after the first `k` simulated months: the bank
evolution of `simMonth` folded over the month sequence (the bank is the only
piece of state the monthly steps thread). -/
def bankAfter (inp : FinInputs) (k : ℕ) : ℚ :=
  (yearMonthSeq.take k).foldl (fun bank ym => (simMonth inp ym.1 ym.2 bank).2) 0

/-- Modelled from the spec (C4): "the regime-A credit bank at the end of
simulated year 1" — the bank after the twelve months of year 1.  The source
has no such output; this is the quantity the claim asserts is used. -/
def endOfYear1CreditBank (inp : FinInputs) : ℚ := bankAfter inp 12

/-- Modelled from the spec (C4): "averageEffectiveTariff = total first-year
billed amount / total first-year consumption" — year-1 baseline bills
(escalation factor 1) over year-1 consumption.  The source has no such
quantity. -/
def specAverageEffectiveTariff (inp : FinInputs) : ℚ :=
  (months.foldl (fun s m =>
    s + calculateBillAmountWithEscalation inp.cfg (consumptionByMonth inp.bills m) 1
      ELECTRICITY_ESCALATION) (0 : ℚ)) /
  (months.foldl (fun s m => s + consumptionByMonth inp.bills m) (0 : ℚ))

/-- Modelled from the spec (C4): the value the claim says
`netMeteringCreditsValue` equals. -/
def specNetMeteringCreditsValue (inp : FinInputs) : ℚ :=
  endOfYear1CreditBank inp * specAverageEffectiveTariff inp

/-- Concrete C3 input: flat zero tariff, one January bill of 100 kWh,
annual production 1200, investment 100.  Every monthly bill is 0, so the
cumulative cash flow falls by the 1-AED maintenance each year:
-100 → -125 after 25 years. -/
def inpC3 : FinInputs := ⟨⟨.flat, 0, []⟩, .DEWA, false, 60, [⟨"January", 100, 0, false⟩], 1200, 100⟩

/-- Concrete C4 input: flat tariff 1, bills January 180 / February 60,
annual production 1440 (120 per month in year 1), investment 1000.
January runs a 60 kWh deficit with an empty bank; February banks 60 kWh;
all other months net to zero, so the year-1 bank ends at 60. -/
def inpC4 : FinInputs :=
  ⟨⟨.flat, 1, []⟩, .DEWA, false, 60,
   [⟨"January", 180, 180, false⟩, ⟨"February", 60, 60, false⟩], 1440, 1000⟩

/-- Concrete C5 input: one 3000-kWh bill (avgDaily 100), DEWA, negative
peak-sun-hours -2, efficiency 50%, panel wattage 500. -/
def inC5 : SizingInputs := ⟨[⟨"January", 3000, 1500, false⟩], .DEWA, false, 60, -2, 50, 500⟩

theorem insertTierByFrom_of_le {t : Tier} {l : List Tier}
    (h : ∀ u ∈ l, t.tFrom ≤ u.tFrom) : insertTierByFrom t l = t :: l := by
  cases l with
  | nil => rfl
  | cons u rest =>
    simp only [insertTierByFrom, if_pos (h u (List.mem_cons_self u rest))]

theorem sortTiersByFrom_of_pairwise {l : List Tier}
    (h : l.Pairwise (fun a b => a.tFrom ≤ b.tFrom)) : sortTiersByFrom l = l := by
  induction l with
  | nil => rfl
  | cons t rest ih =>
    rw [List.pairwise_cons] at h
    show insertTierByFrom t (sortTiersByFrom rest) = t :: rest
    rw [ih h.2, insertTierByFrom_of_le h.1]

/-- C2 (counterexample): `unsortedTiers` is a valid chain once sorted by
`from`, yet `calculateBillAmount` on the caller's (unsorted) order gives 380
for consumption 1000 while the same tiers sorted give 300: the calculator
does depend on the caller's ordering, because it never sorts. -/
theorem billAmount_depends_on_tier_order :
    chainInvB (sortTiersByFrom unsortedTiers) = true ∧
    calculateBillAmount ⟨.tiered, 0.5, unsortedTiers⟩ 1000 = 380 ∧
    calculateBillAmount ⟨.tiered, 0.5, sortTiersByFrom unsortedTiers⟩ 1000 = 300 := by
  refine ⟨?_, ?_, ?_⟩
  · norm_num [unsortedTiers, sortTiersByFrom, insertTierByFrom, chainInvB, tailChainB]
  · with_unfolding_all decide
  · with_unfolding_all decide

/-- C2 (amended): the calculator walks tiers in the caller's order without
sorting; its result agrees with the result on the sorted list exactly when
the caller's list is already sorted ascending by `from`. -/
theorem billAmount_sorted_input_eq_sorted (rate : ℚ) (ts : List Tier) (c : ℚ)
    (h : ts.Pairwise (fun a b => a.tFrom ≤ b.tFrom)) :
    calculateBillAmount ⟨.tiered, rate, ts⟩ c =
      calculateBillAmount ⟨.tiered, rate, sortTiersByFrom ts⟩ c := by
  rw [sortTiersByFrom_of_pairwise h]

theorem billAmount_sorted_input_eq_sorted_witness :
    defaultTiers.Pairwise (fun a b => a.tFrom ≤ b.tFrom) ∧
    calculateBillAmount ⟨.tiered, 0.5, defaultTiers⟩ 5000 =
      calculateBillAmount ⟨.tiered, 0.5, sortTiersByFrom defaultTiers⟩ 5000 :=
  ⟨by with_unfolding_all decide,
   billAmount_sorted_input_eq_sorted 0.5 defaultTiers 5000 (by with_unfolding_all decide)⟩

theorem tailChainB_cons (t u : Tier) (l : List Tier) :
    tailChainB t (u :: l) =
      ((match t.tTo with
        | some x => decide (x + 1 = u.tFrom)
        | none => false) && tailChainB u l) := rfl

theorem chainInvB_cons (t : Tier) (l : List Tier) :
    chainInvB (t :: l) = (decide (t.tFrom = 0) && tailChainB t l) := rfl

theorem tailChainB_congr_head {t t' : Tier} (h : t.tTo = t'.tTo) (l : List Tier) :
    tailChainB t l = tailChainB t' l := by
  cases l <;> simp [tailChainB, h]

theorem tailChainB_modify_rate : ∀ (l : List Tier) (t : Tier) (i : ℕ) (v : ℚ),
    tailChainB t (listModify l i (fun u => { u with rate := v })) = tailChainB t l := by
  intro l
  induction l with
  | nil => intro t i v; rfl
  | cons u rest ih =>
    intro t i v
    cases i with
    | zero =>
      show tailChainB t ({ u with rate := v } :: rest) = _
      simp only [tailChainB]
      rw [@tailChainB_congr_head { u with rate := v } u rfl _]
    | succ i =>
      show tailChainB t (u :: listModify rest i _) = _
      simp only [tailChainB, ih]

theorem chainInvB_updateTier_rate (ts : List Tier) (i : ℕ) (v : ℚ) :
    chainInvB (updateTier ts i .rate v) = chainInvB ts := by
  have hcond : ¬ (TierField.rate = TierField.tto ∧ i < ts.length - 1) := by
    rintro ⟨h, -⟩; exact absurd h (by decide)
  unfold updateTier
  rw [if_neg hcond]
  cases ts with
  | nil => rfl
  | cons t rest =>
    cases i with
    | zero =>
      show chainInvB ({ t with rate := v } :: rest) = _
      simp only [chainInvB]
      rw [@tailChainB_congr_head { t with rate := v } t rfl _]
    | succ i =>
      show chainInvB (t :: listModify rest i _) = _
      simp only [chainInvB, tailChainB_modify_rate]

theorem tailChainB_updateTto : ∀ (l : List Tier) (t : Tier) (i : ℕ) (v : ℚ),
    i < l.length - 1 → tailChainB t l = true →
    tailChainB t (listModify (listModify l (i + 1) (fun u => { u with tFrom := v + 1 }))
      i (fun u => { u with tTo := some v })) = true := by
  intro l
  induction l with
  | nil => intro t i v hi _; simp at hi
  | cons u rest ih =>
    intro t i v hi hch
    cases i with
    | zero =>
      cases rest with
      | nil => simp at hi
      | cons w rest2 =>
        show tailChainB t ({ u with tTo := some v } :: { w with tFrom := v + 1 } :: rest2) = true
        simp only [tailChainB, Bool.and_eq_true] at hch ⊢
        refine ⟨hch.1, by simp, ?_⟩
        rw [@tailChainB_congr_head { w with tFrom := v + 1 } w rfl _]
        exact hch.2.2
    | succ i =>
      have hi' : i < rest.length - 1 := by
        simp only [List.length_cons] at hi; omega
      show tailChainB t (u :: listModify (listModify rest (i + 1) _) i _) = true
      simp only [tailChainB, Bool.and_eq_true] at hch ⊢
      exact ⟨hch.1, ih u i v hi' hch.2⟩

theorem chainInvB_updateTier_tto (ts : List Tier) (i : ℕ) (v : ℚ)
    (hi : i < ts.length - 1) (h : chainInvB ts = true) :
    chainInvB (updateTier ts i .tto v) = true := by
  unfold updateTier
  rw [if_pos ⟨rfl, hi⟩]
  cases ts with
  | nil => simp at hi
  | cons t rest =>
    cases i with
    | zero =>
      cases rest with
      | nil => simp at hi
      | cons w rest2 =>
        show chainInvB ({ t with tTo := some v } :: { w with tFrom := v + 1 } :: rest2) = true
        simp only [chainInvB, tailChainB, Bool.and_eq_true] at h ⊢
        refine ⟨h.1, by simp, ?_⟩
        rw [@tailChainB_congr_head { w with tFrom := v + 1 } w rfl _]
        exact h.2.2
    | succ i =>
      have hi' : i < rest.length - 1 := by
        simp only [List.length_cons] at hi; omega
      show chainInvB (t :: listModify (listModify rest (i + 1) _) i _) = true
      simp only [chainInvB, Bool.and_eq_true] at h ⊢
      exact ⟨h.1, tailChainB_updateTto rest t i v hi' h.2⟩

theorem tailChainB_removeLast : ∀ (l : List Tier) (t : Tier), 2 ≤ l.length →
    tailChainB t l = true →
    tailChainB t (listModify (l.eraseIdx (l.length - 1)) (l.length - 2)
      (fun u => { u with tTo := none })) = true := by
  intro l
  induction l with
  | nil => intro t h _; simp at h
  | cons u rest ih =>
    intro t hlen hch
    cases rest with
    | nil => simp at hlen
    | cons w rest2 =>
      cases rest2 with
      | nil =>
        show tailChainB t [{ u with tTo := none }] = true
        simp only [tailChainB, Bool.and_eq_true] at hch ⊢
        exact ⟨hch.1, rfl⟩
      | cons x rest3 =>
        show tailChainB t (u :: listModify ((w :: x :: rest3).eraseIdx (rest3.length + 1))
          rest3.length _) = true
        rw [tailChainB_cons] at hch ⊢
        simp only [Bool.and_eq_true] at hch ⊢
        exact ⟨hch.1, ih u (by simp) hch.2⟩

/-- C6 helper: `removeTier` on the last index of a valid chain keeps the
chain valid (the predecessor becomes the unbounded top tier). -/
theorem chainInvB_removeTier_last (ts : List Tier) (hlen : 1 < ts.length)
    (h : chainInvB ts = true) : chainInvB (removeTier ts (ts.length - 1)) = true := by
  unfold removeTier
  rw [if_pos hlen]
  have hids : 0 < (ts.eraseIdx (ts.length - 1)).length ∧ 0 < ts.length - 1 ∧
      ts.length - 1 - 1 < (ts.eraseIdx (ts.length - 1)).length := by
    rw [List.length_eraseIdx_of_lt (by omega)]
    omega
  rw [if_pos hids]
  cases ts with
  | nil => simp at hlen
  | cons t rest =>
    cases rest with
    | nil => simp at hlen
    | cons w rest2 =>
      cases rest2 with
      | nil =>
        show chainInvB [{ t with tTo := none }] = true
        simp only [chainInvB, tailChainB, Bool.and_eq_true] at h ⊢
        exact ⟨h.1, rfl⟩
      | cons x rest3 =>
        show chainInvB (t :: listModify ((w :: x :: rest3).eraseIdx (rest3.length + 1))
          rest3.length _) = true
        rw [chainInvB_cons] at h ⊢
        simp only [Bool.and_eq_true] at h ⊢
        exact ⟨h.1, tailChainB_removeLast (w :: x :: rest3) t (by simp) h.2⟩

theorem tailChainB_addTier : ∀ (l : List Tier) (t lastTier : Tier),
    l.getLast? = some lastTier → tailChainB t l = true →
    tailChainB t (l.dropLast ++
      [{ tFrom := lastTier.tFrom, tTo := some (addTierNewFrom lastTier - 1),
         rate := lastTier.rate },
       { tFrom := addTierNewFrom lastTier, tTo := none,
         rate := roundTo2 (lastTier.rate + 0.05) }]) = true := by
  intro l
  induction l with
  | nil => intro t lastTier h _; simp at h
  | cons u rest ih =>
    intro t lastTier hlast hch
    cases rest with
    | nil =>
      simp only [List.getLast?_singleton, Option.some_inj] at hlast
      subst hlast
      show tailChainB t [_, _] = true
      simp only [tailChainB, Bool.and_eq_true] at hch ⊢
      refine ⟨hch.1, ?_, rfl⟩
      simp [sub_add_cancel]
    | cons w rest2 =>
      rw [List.getLast?_cons_cons] at hlast
      show tailChainB t (u :: ((w :: rest2).dropLast ++ _)) = true
      rw [tailChainB_cons] at hch ⊢
      simp only [Bool.and_eq_true] at hch ⊢
      exact ⟨hch.1, ih u lastTier hlast hch.2⟩

/-- C6 helper: `addTier` on a valid chain keeps the chain valid. -/
theorem chainInvB_addTier (ts : List Tier) (h : chainInvB ts = true) :
    chainInvB (addTier ts) = true := by
  cases ts with
  | nil => simp [chainInvB] at h
  | cons t rest =>
    cases rest with
    | nil =>
      simp only [chainInvB, tailChainB, Bool.and_eq_true] at h
      unfold addTier
      simp only [List.getLast?_singleton]
      show chainInvB [_, _] = true
      simp only [chainInvB, tailChainB, Bool.and_eq_true]
      exact ⟨h.1, by simp [sub_add_cancel], rfl⟩
    | cons w rest2 =>
      unfold addTier
      rw [List.getLast?_cons_cons]
      cases hlast : (w :: rest2).getLast? with
      | none => simp at hlast
      | some lastTier =>
        show chainInvB (t :: ((w :: rest2).dropLast ++ _)) = true
        rw [chainInvB_cons] at h ⊢
        simp only [Bool.and_eq_true] at h ⊢
        exact ⟨h.1, tailChainB_addTier (w :: rest2) t lastTier hlast h.2⟩

/-- C6 (counterexample): on the default (valid) chain, removing the first
tier leaves `from = 2001` at the head, and editing a middle tier's `from`
leaves a gap — the invariant is not maintained by every tier edit/remove. -/
theorem chainInvB_defaultTiers : chainInvB defaultTiers = true := by
  simp only [defaultTiers, chainInvB, tailChainB, Bool.and_eq_true, decide_eq_true_eq]
  norm_num

theorem tier_ops_break_chain :
    chainInvB defaultTiers = true ∧
    chainInvB (removeTier defaultTiers 0) = false ∧
    chainInvB (updateTier defaultTiers 1 .tfrom 1500) = false := by
  refine ⟨chainInvB_defaultTiers, ?_, ?_⟩
  · simp only [defaultTiers, removeTier, listModify, chainInvB, tailChainB]
    norm_num
  · simp only [defaultTiers, updateTier, listModify, chainInvB, tailChainB]
    norm_num

/-- C6 (amended): on a valid chain the invariant is preserved by `addTier`,
by `updateTier` of the `rate` field at any index, by `updateTier` of the
`to` field at any non-last index, and by `removeTier` of the last index;
it is not preserved by arbitrary `updateTier`/`removeTier` calls (see the
counterexample `tier_ops_break_chain`). -/
theorem tier_ops_preserve_chain (ts : List Tier) (h : chainInvB ts = true) :
    chainInvB (addTier ts) = true ∧
    (∀ i v, chainInvB (updateTier ts i .rate v) = true) ∧
    (∀ i v, i < ts.length - 1 → chainInvB (updateTier ts i .tto v) = true) ∧
    (1 < ts.length → chainInvB (removeTier ts (ts.length - 1)) = true) := by
  refine ⟨chainInvB_addTier ts h, ?_, ?_, ?_⟩
  · intro i v; rw [chainInvB_updateTier_rate]; exact h
  · intro i v hi; exact chainInvB_updateTier_tto ts i v hi h
  · intro hlen; exact chainInvB_removeTier_last ts hlen h

theorem tier_ops_preserve_chain_witness :
    chainInvB defaultTiers = true ∧
    chainInvB (addTier defaultTiers) = true ∧
    chainInvB (updateTier defaultTiers 2 .rate 0.46) = true ∧
    chainInvB (updateTier defaultTiers 1 .tto 3500) = true ∧
    chainInvB (removeTier defaultTiers 3) = true := by
  have h : chainInvB defaultTiers = true := chainInvB_defaultTiers
  have hmain := tier_ops_preserve_chain defaultTiers h
  exact ⟨h, hmain.1, hmain.2.1 2 0.46,
    hmain.2.2.1 1 3500 (by with_unfolding_all decide),
    hmain.2.2.2 (by with_unfolding_all decide)⟩

/-- C1: on the default tier table, a consumption of 5000 bills exactly
2000×0.30 + 2000×0.38 + 1000×0.44 = 1800, both through `calculateBillAmount`
and through the escalated variant at year 1 (escalation factor 1). -/
theorem billAmount_default_tiers_5000 :
    calculateBillAmount ⟨.tiered, 0.5, defaultTiers⟩ 5000 = 1800 ∧
    calculateBillAmountWithEscalation ⟨.tiered, 0.5, defaultTiers⟩ 5000 1
      ELECTRICITY_ESCALATION = 1800 := by
  with_unfolding_all decide

theorem sortBills_perm (l : List Bill) : (sortBills l).Perm l := List.mergeSort_perm l _

theorem dedupKeepFirst_months : ∀ (l : List Bill) (seen : List String),
    ((dedupKeepFirst l seen).map (fun b => b.month)).Nodup ∧
    ∀ m ∈ (dedupKeepFirst l seen).map (fun b => b.month), ¬ m ∈ seen := by
  intro l
  induction l with
  | nil => intro seen; exact ⟨List.nodup_nil, by simp [dedupKeepFirst]⟩
  | cons b rest ih =>
    intro seen
    by_cases hb : b.month ∈ seen
    · simpa only [dedupKeepFirst, if_pos hb] using ih seen
    · simp only [dedupKeepFirst, if_neg hb, List.map_cons, List.nodup_cons]
      obtain ⟨h1, h2⟩ := ih (b.month :: seen)
      refine ⟨⟨fun hmem => (h2 _ hmem) (List.mem_cons_self _ _), h1⟩, ?_⟩
      intro m hm
      rcases List.mem_cons.mp hm with h | h
      · subst h; exact hb
      · exact fun hmem => (h2 _ h) (List.mem_cons_of_mem _ hmem)

theorem addBills_months_nodup (cfg : RateConfig) (bills : List Bill) (input : String)
    (h : (bills.map (fun b => b.month)).Nodup) :
    ((addBills cfg bills input).map (fun b => b.month)).Nodup := by
  unfold addBills
  by_cases he : (parseBillInput cfg bills input).isEmpty
  · rw [if_pos he]; exact h
  · rw [if_neg he]
    exact ((sortBills_perm _).map _).nodup_iff.mpr
      (dedupKeepFirst_months (bills ++ parseBillInput cfg bills input) []).1

theorem months_nodup : months.Nodup := by with_unfolding_all decide

theorem estimate_months_nodup (cfg : RateConfig) (bills : List Bill)
    (h : (bills.map (fun b => b.month)).Nodup) :
    ((handleEstimateFromPartialData cfg bills).map (fun b => b.month)).Nodup := by
  unfold handleEstimateFromPartialData
  by_cases hg : bills.length = 0 ∨ 12 ≤ bills.length
  · rw [if_pos hg]; exact h
  · rw [if_neg hg]
    refine ((sortBills_perm _).map _).nodup_iff.mpr ?_
    rw [List.map_append]
    have hres : (bills.map (fun b => ({ b with isEstimated := false } : Bill))).map
        (fun b => b.month) = bills.map (fun b => b.month) := by
      simp [List.map_map, Function.comp]
    have hest : (((months.filter (fun m =>
          decide (¬ m ∈ bills.map (fun b => b.month)))).map (fun m =>
            let estimatedConsumption : ℚ :=
              (jsRound (normalizedAvgConsumption bills * seasonalFactor m) : ℚ)
            (⟨m, estimatedConsumption, calculateBillAmount cfg estimatedConsumption,
              true⟩ : Bill))).map (fun b => b.month)) =
        months.filter (fun m => decide (¬ m ∈ bills.map (fun b => b.month))) := by
      simp [List.map_map, Function.comp_def]
    rw [hres, hest]
    refine List.Nodup.append h (months_nodup.filter _) ?_
    intro m hm1 hm2
    have := List.of_mem_filter hm2
    rw [decide_eq_true_eq] at this
    exact this hm1

/-- C7: starting from the empty ledger, every sequence of ledger operations
(add parsed bills, estimate the full year, remove one bill, clear) leaves
the ledger with pairwise-distinct calendar months: `parseBillInput` rejects
months already present, the `addBills` merge keeps the first bill per month,
and estimation only fills months that are absent. -/
theorem ledger_months_nodup (cfg : RateConfig) (ops : List LedgerOp) :
    ((runOps cfg ops).map (fun b => b.month)).Nodup := by
  unfold runOps
  have main : ∀ (rest : List LedgerOp) (bills : List Bill),
      (bills.map (fun b => b.month)).Nodup →
      ((rest.foldl (fun bills op =>
        match op with
        | .add input => addBills cfg bills input
        | .estimate => handleEstimateFromPartialData cfg bills
        | .removeBill i => bills.eraseIdx i
        | .clear => []) bills).map (fun b => b.month)).Nodup := by
    intro rest
    induction rest with
    | nil => intro bills h; simpa using h
    | cons op rest2 ih =>
      intro bills h
      rw [List.foldl_cons]
      refine ih _ ?_
      cases op with
      | add input => exact addBills_months_nodup cfg bills input h
      | estimate => exact estimate_months_nodup cfg bills h
      | removeBill i => exact h.sublist ((bills.eraseIdx_sublist i).map _)
      | clear => simp
  exact main ops [] (by simp)

theorem estimate_noop_of_guard (cfg : RateConfig) (bills : List Bill)
    (hg : bills.length = 0 ∨ 12 ≤ bills.length) :
    handleEstimateFromPartialData cfg bills = bills := by
  unfold handleEstimateFromPartialData
  rw [if_pos hg]

theorem months_filter_not_mem_length (user : List String) :
    12 ≤ user.length + (months.filter (fun m => decide (¬ m ∈ user))).length := by
  have hlen := (List.filter_append_perm (fun m => decide (¬ m ∈ user)) months).length_eq
  rw [List.length_append] at hlen
  have hm12 : months.length = 12 := rfl
  have hsub : (months.filter (fun m => !(decide (¬ m ∈ user)))).length ≤ user.length := by
    refine List.Subperm.length_le ((months_nodup.filter _).subperm ?_)
    intro m hm
    have := List.of_mem_filter hm
    simpa using this
  omega

theorem estimate_length (cfg : RateConfig) (bills : List Bill)
    (hg : ¬ (bills.length = 0 ∨ 12 ≤ bills.length)) :
    12 ≤ (handleEstimateFromPartialData cfg bills).length := by
  unfold handleEstimateFromPartialData
  rw [if_neg hg]
  rw [(sortBills_perm _).length_eq, List.length_append, List.length_map, List.length_map]
  have := months_filter_not_mem_length (bills.map (fun b => b.month))
  rw [List.length_map] at this
  omega

/-- C8: `handleEstimateFromPartialData` is a no-op unless the ledger holds
1..11 bills; it is idempotent on every ledger (in particular once 12 months
exist); it never changes the month, consumption or amount of a bill already
present (only its `isEstimated` flag is reset); and when it does act, every
output bill is either a provided bill (with `isEstimated := false`) or an
estimated bill for a missing month whose consumption is rounded *before*
its amount is computed from it. -/
theorem estimateFullYear_props (cfg : RateConfig) (bills : List Bill) :
    ((bills.length = 0 ∨ 12 ≤ bills.length) →
        handleEstimateFromPartialData cfg bills = bills) ∧
    handleEstimateFromPartialData cfg (handleEstimateFromPartialData cfg bills) =
      handleEstimateFromPartialData cfg bills ∧
    (∀ b ∈ bills, ∃ b' ∈ handleEstimateFromPartialData cfg bills,
        b'.month = b.month ∧ b'.consumption = b.consumption ∧ b'.amount = b.amount) ∧
    (¬ (bills.length = 0 ∨ 12 ≤ bills.length) →
      ∀ b ∈ handleEstimateFromPartialData cfg bills,
        b ∈ bills.map (fun x => { x with isEstimated := false }) ∨
        (b.isEstimated = true ∧ b.month ∈ months ∧
         ¬ b.month ∈ bills.map (fun x => x.month) ∧
         b.consumption =
           (jsRound (normalizedAvgConsumption bills * seasonalFactor b.month) : ℚ) ∧
         b.amount = calculateBillAmount cfg b.consumption)) := by
  refine ⟨estimate_noop_of_guard cfg bills, ?_, ?_, ?_⟩
  · by_cases hg : bills.length = 0 ∨ 12 ≤ bills.length
    · rw [estimate_noop_of_guard cfg bills hg]
      exact estimate_noop_of_guard cfg bills hg
    · exact estimate_noop_of_guard cfg _ (Or.inr (estimate_length cfg bills hg))
  · intro b hb
    by_cases hg : bills.length = 0 ∨ 12 ≤ bills.length
    · exact ⟨b, by rw [estimate_noop_of_guard cfg bills hg]; exact hb, rfl, rfl, rfl⟩
    · refine ⟨{ b with isEstimated := false }, ?_, rfl, rfl, rfl⟩
      unfold handleEstimateFromPartialData
      rw [if_neg hg]
      exact ((sortBills_perm _).mem_iff).mpr
        (List.mem_append_left _ (List.mem_map_of_mem _ hb))
  · intro hg b hb
    unfold handleEstimateFromPartialData at hb
    rw [if_neg hg] at hb
    have hb2 := ((sortBills_perm _).mem_iff).mp hb
    rcases List.mem_append.mp hb2 with hleft | hright
    · exact Or.inl hleft
    · right
      obtain ⟨m, hm, hbm⟩ := List.mem_map.mp hright
      subst hbm
      refine ⟨rfl, List.mem_of_mem_filter hm, ?_, rfl, rfl⟩
      have := List.of_mem_filter hm
      rw [decide_eq_true_eq] at this
      exact this

theorem estimateFullYear_props_witness :
    handleEstimateFromPartialData ⟨.flat, 0.5, defaultTiers⟩ [] = [] ∧
    (∃ b' ∈ handleEstimateFromPartialData ⟨.flat, 0.5, defaultTiers⟩
        [⟨"January", 100, 50, false⟩],
      b'.month = "January" ∧ b'.consumption = 100 ∧ b'.amount = 50) :=
  ⟨(estimateFullYear_props ⟨.flat, 0.5, defaultTiers⟩ []).1 (Or.inl rfl),
   (estimateFullYear_props ⟨.flat, 0.5, defaultTiers⟩ [⟨"January", 100, 50, false⟩]).2.2.1
     ⟨"January", 100, 50, false⟩ (List.mem_singleton.mpr rfl)⟩

theorem tryMatch_eq_findGreatest (t : List Char) : ∀ (n : ℕ),
    tryMatch t n =
      (if Nat.findGreatest (entryMatchesAt t) n = 0 then none
       else some (t.take (Nat.findGreatest (entryMatchesAt t) n),
         (t.drop (Nat.findGreatest (entryMatchesAt t) n)).dropWhile isSepChar)) := by
  intro n
  induction n with
  | zero => rfl
  | succ n ih =>
    rw [Nat.findGreatest_succ]
    by_cases hP : entryMatchesAt t (n + 1)
    · have hcond : ((t.take (n + 1)).all isWordChar && sepsDigitsB (t.drop (n + 1))) = true := by
        rw [Bool.and_eq_true]; exact ⟨hP.2.1, hP.2.2⟩
      simp only [tryMatch]
      rw [if_pos hP, if_pos hcond, if_neg (Nat.succ_ne_zero n)]
    · have hcond : ¬ (((t.take (n + 1)).all isWordChar && sepsDigitsB (t.drop (n + 1))) = true) := by
        rw [Bool.and_eq_true]
        rintro ⟨h1, h2⟩
        exact hP ⟨Nat.succ_pos n, h1, h2⟩
      simp only [tryMatch]
      rw [if_neg hP, if_neg hcond]
      exact ih

theorem matchEntry_eq_specMatchEntry (t : List Char) : matchEntry t = specMatchEntry t :=
  tryMatch_eq_findGreatest t t.length

theorem findIdx?_index_eq_find? (p : String → Bool) : ∀ (l : List String),
    (match l.findIdx? p with
     | none => (none : Option String)
     | some i => l[i]?) = l.find? p := by
  intro l
  induction l with
  | nil => rfl
  | cons a rest ih =>
    by_cases hpa : p a = true
    · simp [List.findIdx?_cons, hpa, List.find?_cons_of_pos]
    · have hpa' : p a = false := by simpa using hpa
      rw [List.find?_cons_of_neg _ (by simp [hpa'])]
      rw [List.findIdx?_cons, if_neg (by simp [hpa']), List.findIdx?_succ]
      cases h : rest.findIdx? p with
      | none =>
        simp only [h] at ih
        simpa [h] using ih
      | some j =>
        simp only [h] at ih
        simpa [h] using ih

/-- C9 (amended): `parseBillInput` coincides with the spec-side parser: it
splits on comma/semicolon/newline and accepts a trimmed entry exactly when
it decomposes into the *longest* word-character run whose remainder is an
optional whitespace/hyphen run followed by at least one digit (the greedy
regex capture), the word is a case-insensitive prefix of a full month name,
the *integer* digit value is > 0, and the month is not already present in
the ledger or earlier in the batch (first occurrence wins); every other
entry is dropped silently with no partial record. -/
theorem parseBillInput_eq_spec (cfg : RateConfig) (bills : List Bill) (input : String) :
    parseBillInput cfg bills input = specParseBills cfg bills input := by
  unfold parseBillInput specParseBills
  refine congrArg Prod.fst ?_
  apply List.foldl_ext
  intro acc entry _
  rw [matchEntry_eq_specMatchEntry]
  cases hm : specMatchEntry (trimChars entry) with
  | none => rfl
  | some pr =>
    obtain ⟨monthStr, consumptionStr⟩ := pr
    show (match months.findIdx? (fun m =>
        (toLowerChars monthStr).isPrefixOf (toLowerChars m.toList)) with
      | none => acc
      | some monthIndex =>
        match months[monthIndex]? with
        | none => acc
        | some month =>
          if 0 < (digitsVal consumptionStr : ℚ) ∧ ¬ month ∈ acc.2 then
            (acc.1 ++ [(⟨month, (digitsVal consumptionStr : ℚ),
              calculateBillAmount cfg (digitsVal consumptionStr : ℚ), false⟩ : Bill)],
             acc.2 ++ [month])
          else acc) =
      (match months.find? (fun m =>
        (toLowerChars monthStr).isPrefixOf (toLowerChars m.toList)) with
      | none => acc
      | some month =>
        if 0 < (digitsVal consumptionStr : ℚ) ∧ ¬ month ∈ acc.2 then
          (acc.1 ++ [(⟨month, (digitsVal consumptionStr : ℚ),
            calculateBillAmount cfg (digitsVal consumptionStr : ℚ), false⟩ : Bill)],
           acc.2 ++ [month])
        else acc)
    rw [← findIdx?_index_eq_find? (fun m =>
      (toLowerChars monthStr).isPrefixOf (toLowerChars m.toList)) months]
    cases months.findIdx? (fun m =>
        (toLowerChars monthStr).isPrefixOf (toLowerChars m.toList)) with
    | none => rfl
    | some i =>
      cases months[i]? with
      | none => rfl
      | some month => rfl

/-- C9 (counterexample): the entry `Jan 10.5` is a month-prefix word, a
separator and a *decimal* number > 0, so the claim as stated accepts it;
but `parseBillInput` produces nothing for it — the regex `(\d+)$` accepts
integers only, so the entry is silently dropped. -/
theorem parse_rejects_decimal :
    specOrigAcceptsEntry (trimChars "Jan 10.5".toList) = true ∧
    parseBillInput ⟨.flat, 0.5, defaultTiers⟩ [] "Jan 10.5" = [] := by
  constructor
  · with_unfolding_all decide
  · with_unfolding_all decide

/-- C10: throughout the 25-year regime-A simulation the credit bank never
goes negative.  A deficit month draws exactly `min(|netKwh|, bank)` (see
`simMonth`), so one simulated month maps a nonnegative bank to a
nonnegative bank; consequently the bank after any number of simulated
months is nonnegative, and the final `runSim` bank is that same fold over
all 300 months. -/
theorem creditBank_nonneg (inp : FinInputs) :
    (∀ (year : ℕ) (m : String) (bank : ℚ), 0 ≤ bank → 0 ≤ (simMonth inp year m bank).2) ∧
    (∀ k, 0 ≤ bankAfter inp k) ∧
    (runSim inp).netMeteringCreditsKwh = bankAfter inp yearMonthSeq.length := by
  have hstep : ∀ (year : ℕ) (m : String) (bank : ℚ), 0 ≤ bank →
      0 ≤ (simMonth inp year m bank).2 := by
    intro year m bank hb
    unfold simMonth
    cases inp.authority with
    | DEWA =>
      dsimp only
      split
      · rename_i hnet
        exact add_nonneg hb hnet
      · have hmin : min |inp.annualProduction / 12 * (1 - DEGRADATION_RATE) ^ (year - 1) -
            consumptionByMonth inp.bills m| bank ≤ bank := min_le_right _ _
        dsimp only
        linarith
    | FEWA => exact hb
  have hfold : ∀ (l : List (ℕ × String)) (b : ℚ), 0 ≤ b →
      0 ≤ l.foldl (fun bank ym => (simMonth inp ym.1 ym.2 bank).2) b := by
    intro l
    induction l with
    | nil => intro b hb; simpa using hb
    | cons ym rest ih =>
      intro b hb
      rw [List.foldl_cons]
      exact ih _ (hstep ym.1 ym.2 b hb)
  have hyear : ∀ (ys : List ℕ) (st : SimState),
      (ys.foldl (yearStep inp) st).netMeteringCreditsKwh =
        (ys.flatMap (fun y => months.map (fun m => (y, m)))).foldl
          (fun bank ym => (simMonth inp ym.1 ym.2 bank).2) st.netMeteringCreditsKwh := by
    intro ys
    induction ys with
    | nil => intro st; rfl
    | cons y rest ih =>
      intro st
      rw [List.foldl_cons, ih, List.flatMap_cons, List.foldl_append]
      congr 1
  refine ⟨hstep, ?_, ?_⟩
  · intro k
    exact hfold _ 0 (le_refl 0)
  · rw [bankAfter, List.take_length]
    exact hyear (List.range' 1 SYSTEM_LIFESPAN_YEARS) ⟨-inp.initialInvestment, 0, 0, 0⟩

theorem creditBank_nonneg_witness :
    (0 : ℚ) ≤ 0 ∧ 0 ≤ (simMonth inpC4 1 "January" 0).2 ∧ 0 ≤ bankAfter inpC4 12 :=
  ⟨le_refl 0, (creditBank_nonneg inpC4).1 1 "January" 0 (le_refl 0),
   (creditBank_nonneg inpC4).2.1 12⟩

/-- C3 (code bug): at `inpC3` (flat zero tariff, investment 100) the final
cumulative cash flow is -125, so the claim — and the app's own explanation
of "25-Year Net Profit" as profit *after subtracting the system's initial
cost* — prescribes a rounded value of -125; the code instead outputs
`Math.round(cumulativeCashFlow + initialInvestment)` = -25, adding the
investment back onto the series that had already netted it out. -/
theorem roi25Year_adds_investment_back :
    (financialAnalysis inpC3).roi25Year = -25 ∧
    jsRound ((runSim inpC3).cumulativeCashFlow) = -125 := by
  constructor
  · with_unfolding_all decide
  · with_unfolding_all decide

/-- C4 (counterexample): at `inpC4` the regime-A credit bank ends year 1 at
60 kWh and the spec's average effective tariff is 1, so the claim predicts
a `netMeteringCreditsValue` of 60; the code outputs 0, because it prices
`max(0, annualProduction − 12·avgMonthlyConsumption)` (here 0) at
`getAverageRate`, ignoring the simulated bank entirely. -/
theorem netMeteringCredits_ignores_bank :
    endOfYear1CreditBank inpC4 = 60 ∧
    specAverageEffectiveTariff inpC4 = 1 ∧
    specNetMeteringCreditsValue inpC4 = 60 ∧
    (financialAnalysis inpC4).netMeteringCredits = 0 := by
  refine ⟨?_, ?_, ?_, ?_⟩ <;> with_unfolding_all decide

/-- C4 (amended): the output `netMeteringCredits` equals
`round(max(0, annualProduction − 12·avgMonthlyConsumption) × getAverageRate(avgMonthlyConsumption))`
— nameplate excess production priced at the average rate at the average
consumption — and is not a function of the simulated credit bank. -/
theorem netMeteringCredits_formula (inp : FinInputs)
    (h1 : inp.bills.length ≠ 0) (h2 : inp.annualProduction ≠ 0) :
    (financialAnalysis inp).netMeteringCredits =
      jsRound (max 0 (inp.annualProduction - avgMonthlyConsumption inp.bills * 12) *
        getAverageRate inp.cfg (avgMonthlyConsumption inp.bills)) := by
  unfold financialAnalysis
  rw [if_neg (by push_neg; exact ⟨h1, h2⟩)]

theorem netMeteringCredits_formula_witness :
    inpC4.bills.length ≠ 0 ∧ inpC4.annualProduction ≠ 0 ∧
    (financialAnalysis inpC4).netMeteringCredits =
      jsRound (max 0 (inpC4.annualProduction - avgMonthlyConsumption inpC4.bills * 12) *
        getAverageRate inpC4.cfg (avgMonthlyConsumption inpC4.bills)) :=
  ⟨by with_unfolding_all decide, by with_unfolding_all decide,
   netMeteringCredits_formula inpC4 (by with_unfolding_all decide)
     (by with_unfolding_all decide)⟩

/-- C5 (counterexample): no value is substituted and no guard exists.  With
`peakSunHours = -2 ≤ 0` the sizing divides by the raw negative value
(systemSize -100) — substituting 1 would give 200 — and with
`panelWattage = -500 ≤ 0` the panel count is -200, not the claimed 0. -/
theorem sizing_has_no_guards :
    (systemSizing inC5).systemSize = -100 ∧
    (systemSizing { inC5 with peakSunHours := 1 }).systemSize = 200 ∧
    (systemSizing { inC5 with peakSunHours := 2, panelWattage := -500 }).panelCount = -200 := by
  refine ⟨?_, ?_, ?_⟩ <;> with_unfolding_all decide

theorem foldl_add_consumption_nonneg : ∀ (bills : List Bill),
    (∀ b ∈ bills, 0 ≤ b.consumption) →
    ∀ (init : ℚ), 0 ≤ init → 0 ≤ bills.foldl (fun s b => s + b.consumption) init := by
  intro bills
  induction bills with
  | nil => intro _ init h0; simpa using h0
  | cons b rest ih =>
    intro h init h0
    rw [List.foldl_cons]
    exact ih (fun x hx => h x (List.mem_cons_of_mem _ hx)) _
      (add_nonneg h0 (h b (List.mem_cons_self _ _)))

/-- C5 (amended): the sizing code substitutes nothing — its divisions use
the raw `peakSunHours`, `systemEfficiency` and `panelWattage`.  When all
three parameters are positive, both divisors are positive (so no division
by a non-positive number occurs), and with a nonnegative ledger and daytime
share the resulting panel count is nonnegative. -/
theorem sizing_divisors_pos (inp : SizingInputs)
    (h1 : 0 < inp.peakSunHours) (h2 : 0 < inp.systemEfficiency)
    (h3 : 0 < inp.panelWattage) (h4 : ∀ b ∈ inp.bills, 0 ≤ b.consumption)
    (h5 : 0 ≤ inp.daytimeConsumption) :
    0 < inp.peakSunHours * (inp.systemEfficiency / 100) ∧
    0 ≤ (systemSizing inp).panelCount := by
  have hdiv : 0 < inp.peakSunHours * (inp.systemEfficiency / 100) :=
    mul_pos h1 (by positivity)
  refine ⟨hdiv, ?_⟩
  unfold systemSizing
  by_cases hb : 0 < inp.bills.length
  · rw [if_pos hb]
    dsimp only
    have havg : 0 ≤ (inp.bills.foldl (fun s b => s + b.consumption) (0 : ℚ)) /
        inp.bills.length :=
      div_nonneg (foldl_add_consumption_nonneg inp.bills h4 0 (le_refl 0)) (by positivity)
    have htarget : 0 ≤ (if inp.authority = .FEWA ∧ inp.batteryEnabled = false then
        (inp.bills.foldl (fun s b => s + b.consumption) (0 : ℚ)) / inp.bills.length / 30 *
          (inp.daytimeConsumption / 100)
      else (inp.bills.foldl (fun s b => s + b.consumption) (0 : ℚ)) / inp.bills.length / 30) := by
      split
      · exact mul_nonneg (by positivity) (by positivity)
      · positivity
    refine Int.ceil_nonneg ?_
    have hsize : 0 ≤ (if inp.authority = .FEWA ∧ inp.batteryEnabled = false then
        (inp.bills.foldl (fun s b => s + b.consumption) (0 : ℚ)) / inp.bills.length / 30 *
          (inp.daytimeConsumption / 100)
      else (inp.bills.foldl (fun s b => s + b.consumption) (0 : ℚ)) / inp.bills.length / 30) /
        (inp.peakSunHours * (inp.systemEfficiency / 100)) :=
      div_nonneg htarget hdiv.le
    positivity
  · rw [if_neg hb]

theorem sizing_divisors_pos_witness :
    (0 : ℚ) < ({ inC5 with peakSunHours := 2 } : SizingInputs).peakSunHours ∧
    0 ≤ (systemSizing { inC5 with peakSunHours := 2 }).panelCount :=
  ⟨by with_unfolding_all decide,
   (sizing_divisors_pos { inC5 with peakSunHours := 2 }
     (by with_unfolding_all decide) (by with_unfolding_all decide)
     (by with_unfolding_all decide) (by with_unfolding_all decide)
     (by with_unfolding_all decide)).2⟩
